import Mathlib

set_option maxRecDepth 100000

/-!
Verification development for the `get_yangs` repository (`src/get_yang.py`).

The program is a NETCONF-over-SSH client that reads the device hello,
enumerates advertised YANG schemas and fetches each one, writing it to a
file.  We shallowly embed the core of `SSHClient` (framing reader, session
protocol, XML extraction, request templating) over `List Char` strings and
an explicit XML element tree (the output of `xml.etree.ElementTree`, which
is library code outside the repository).

Modelling conventions:
* A string is a `List Char`.  Python `"x" in s` is `containsSub`, and
  `str.replace(pat, r)` is a literal-pattern left-to-right scan.
* The transport is the finite list of characters delivered before the SSH
  process closes, together with the process exit code `rc`.  While
  characters remain, `Popen.poll()` returns `None`; once they are
  exhausted it returns `rc`, and `stdout.read(1)` returns the empty
  string.  `while not self.client.poll()` therefore keeps looping forever
  when `rc = 0`; we model that divergence as the `none` result.
* Python exceptions raised by the parsing code (`None.text` →
  `AttributeError`, `len(None)` → `TypeError`) are an explicit error type.
-/

/-- The NETCONF end-of-message marker `]]>]]>`. -/
def markerChars : List Char := "]]>]]>".toList

/-- The capability substring checked by `read_hello`. -/
def monitoringChars : List Char := "ietf-netconf-monitoring".toList

/-- Python `pat in s` (substring containment), for `"]]>]]>" in data` etc. -/
def containsSub (pat : List Char) : List Char → Bool
  | [] => pat.isEmpty
  | c :: rest => pat.isPrefixOf (c :: rest) || containsSub pat rest

/-- Python `data.replace("]]>]]>", "")`: remove every occurrence of the
six-character marker, scanning left to right without rescanning. -/
def removeMarker : List Char → List Char
  | ']' :: ']' :: '>' :: ']' :: ']' :: '>' :: rest => removeMarker rest
  | c :: rest => c :: removeMarker rest
  | [] => []

/-- The byte-wise accumulation loop shared by `read_hello` and the
byte-wise branch of `read_command_output`:

    while not self.client.poll():
        data += self.client.stdout.read(1)
        if "]]>]]>" in data:
            break

`acc` is `data` so far, `stream` the characters still to be delivered and
`rc` the exit code `poll()` reports once the stream is exhausted.  The
result is `none` when the loop never terminates (`rc = 0` at exhaustion:
`not 0` is truthy in Python, and `read(1)` keeps returning `""`). -/
def readLoopBytewise (acc : List Char) (stream : List Char) (rc : Nat) :
    Option (List Char) :=
  match stream with
  | [] => if rc = 0 then none else some acc
  | c :: rest =>
    if containsSub markerChars (acc ++ [c]) then some (acc ++ [c])
    else readLoopBytewise (acc ++ [c]) rest rc

/-- Split a character stream into lines the way iterating a Python text
file object does: each line keeps its trailing newline; a final chunk
without a newline is a line of its own; at end of stream the iteration
stops. `cur` is the portion of the current line accumulated so far. -/
def splitLinesAux (cur : List Char) : List Char → List (List Char)
  | [] => if cur.isEmpty then [] else [cur]
  | c :: rest =>
    if c = '\n' then (cur ++ ['\n']) :: splitLinesAux [] rest
    else splitLinesAux (cur ++ [c]) rest

/-- All lines of a stream, terminators kept. -/
def splitLinesKeep (s : List Char) : List (List Char) := splitLinesAux [] s

/-- The line-wise accumulation loop of `read_command_output`:

    for line in self.client.stdout:
        data += line
        if "]]>]]>" in line:
            break

The loop ends either at the first line containing the marker or at end of
stream (the file iterator raises `StopIteration` at EOF regardless of the
exit code). -/
def lineLoop : List (List Char) → List Char
  | [] => []
  | l :: rest => l ++ (if containsSub markerChars l then [] else lineLoop rest)

example : markerChars.length = 6 := by decide

example : containsSub markerChars ("ab]]>]]>cd".toList) = true := by decide

example : containsSub markerChars ("ab]]>]] >cd".toList) = false := by decide

example : removeMarker ("ab]]>]]>cd".toList) = "abcd".toList := by decide

example : readLoopBytewise [] ("hi]]>]]>rest".toList) 0 =
    some ("hi]]>]]>".toList) := by decide

example : readLoopBytewise [] ("hi".toList) 0 = none := by decide

example : readLoopBytewise [] ("hi".toList) 2 = some ("hi".toList) := by decide

example : splitLinesKeep ("ab\ncd\nef".toList) =
    ["ab\n".toList, "cd\n".toList, "ef".toList] := by decide

example : lineLoop (splitLinesKeep ("ab\n]]>]]>\nzz".toList)) =
    "ab\n]]>]]>\n".toList := by decide

/-! ## Session protocol: hello, framing mode, reads and writes -/

/-- The framing state of one `SSHClient` session: the `__newline_data`
flag set once by `read_hello` and consulted by every later
`read_command_output`. -/
structure Session where
  newline_data : Bool
deriving DecidableEq, Repr

/-- Outcome of `read_hello`: the loop may never terminate (`hang`), the
process may `sys.exit(1)` when `"ietf-netconf-monitoring"` is absent
(`exitFail`), or the de-framed hello is returned together with the
framing mode chosen for the rest of the session. -/
inductive HelloResult where
  | hang
  | exitFail
  | ok (data : List Char) (sess : Session)
deriving DecidableEq, Repr

/-- `SSHClient.read_hello`: byte-wise accumulate until the marker (or
close), strip the marker, exit if the monitoring capability substring is
absent, and record whether the payload contained a newline. -/
def read_hello (stream : List Char) (rc : Nat) : HelloResult :=
  match readLoopBytewise [] stream rc with
  | none => .hang
  | some raw =>
    let data := removeMarker raw
    if containsSub monitoringChars data then
      .ok data ⟨containsSub ['\n'] data⟩
    else
      .exitFail

/-- Outcome of `read_command_output`: the byte-wise loop can hang
(exit code 0 at close); otherwise the accumulated, marker-stripped
buffer is returned. -/
inductive ReadResult where
  | hang
  | ok (data : List Char)
deriving DecidableEq, Repr

/-- `SSHClient.read_command_output`: line-wise or byte-wise according to
`__newline_data`, then strip the marker.  The session state is returned
unchanged — the method never writes the flag. -/
def read_command_output (sess : Session) (stream : List Char) (rc : Nat) :
    ReadResult × Session :=
  if sess.newline_data then
    (.ok (removeMarker (lineLoop (splitLinesKeep stream))), sess)
  else
    match readLoopBytewise [] stream rc with
    | none => (.hang, sess)
    | some raw => (.ok (removeMarker raw), sess)

/-- `SSHClient.write_command`: the exact character sequence handed to the
transport is the command followed by `"\n"`. -/
def write_command (command : List Char) : List Char := command ++ ['\n']

/-- The `netconf_hello` message template (verbatim from `__init__`). -/
def netconf_hello : List Char :=
  ("\n<?xml version=\"1.0\" encoding=\"UTF-8\"?>\n<nc:hello xmlns:nc=\"urn:ietf:params:xml:ns:netconf:base:1.0\">\n    <nc:capabilities>\n        <nc:capability>urn:ietf:params:netconf:base:1.0</nc:capability>\n        <nc:capability>urn:ietf:params:xml:ns:yang:ietf-netconf-monitoring</nc:capability>\n    </nc:capabilities>\n</nc:hello>").toList

/-- The `netconf_state` request template (verbatim from `__init__`). -/
def netconf_state : List Char :=
  ("\n<rpc xmlns=\"urn:ietf:params:xml:ns:netconf:base:1.0\" message-id=\"0\">\n  <get>\n    <filter type=\"subtree\">\n      <netconf-state xmlns=\"urn:ietf:params:xml:ns:yang:ietf-netconf-monitoring\">\n        <schemas/>\n      </netconf-state>\n    </filter>\n  </get>\n</rpc>\n]]>]]>").toList

/-- The `netconf_get_schema` request template (verbatim from `__init__`;
`\x7b` and `\x7d` are the literal braces of the
`{{IDENTIFIER}}`/`{{VERSION}}` placeholders). -/
def netconf_get_schema : List Char :=
  ("\n<rpc xmlns=\"urn:ietf:params:xml:ns:netconf:base:1.0\" message-id=\"104\">\n  <get-schema xmlns=\"urn:ietf:params:xml:ns:yang:ietf-netconf-monitoring\">\n    <identifier>\x7b\x7bIDENTIFIER\x7d\x7d</identifier>\n    <version>\x7b\x7bVERSION\x7d\x7d</version>\n    <format>yang</format>\n  </get-schema>\n</rpc>\n]]>]]>").toList

/-- Python `s.replace("{{IDENTIFIER}}", identifier)`: literal scan,
replacement text not rescanned. -/
def substIDENTIFIER (identifier : List Char) : List Char → List Char
  | '{' :: '{' :: 'I' :: 'D' :: 'E' :: 'N' :: 'T' :: 'I' :: 'F' :: 'I' :: 'E' :: 'R' :: '}' :: '}' :: rest =>
    identifier ++ substIDENTIFIER identifier rest
  | c :: rest => c :: substIDENTIFIER identifier rest
  | [] => []

/-- Python `s.replace("{{VERSION}}", version)`. -/
def substVERSION (version : List Char) : List Char → List Char
  | '{' :: '{' :: 'V' :: 'E' :: 'R' :: 'S' :: 'I' :: 'O' :: 'N' :: '}' :: '}' :: rest =>
    version ++ substVERSION version rest
  | c :: rest => c :: substVERSION version rest
  | [] => []

/-- The command built by `SSHClient.get_netconf_schema` before it is
written to the transport: substitute the identifier, then the version,
into the fixed template. -/
def get_netconf_schema_command (identifier version : List Char) : List Char :=
  substVERSION version (substIDENTIFIER identifier netconf_get_schema)

/-- Result of the handshake phase of `main` (lines 316–319): read the
device hello, then answer with the client hello.  The second component
lists the messages written to the transport during the phase. -/
inductive HandshakeResult where
  | hang
  | capabilityMissing
  | ok (sess : Session)
deriving DecidableEq, Repr

/-- The handshake as driven by `main`: `client.read_hello()` followed —
only on normal return — by `client.write_command(client.netconf_hello)`.
`sys.exit(1)` inside `read_hello` means nothing further runs. -/
def performHandshake (stream : List Char) (rc : Nat) :
    HandshakeResult × List (List Char) :=
  match read_hello stream rc with
  | .hang => (.hang, [])
  | .exitFail => (.capabilityMissing, [])
  | .ok _ sess => (.ok sess, [write_command netconf_hello])

example : read_hello ("<hello>ietf-netconf-monitoring</hello>\n]]>]]>".toList) 0 =
    .ok ("<hello>ietf-netconf-monitoring</hello>\n".toList) ⟨true⟩ := by decide

example : read_hello ("x ietf-netconf-monitoring y]]>]]>".toList) 0 =
    .ok ("x ietf-netconf-monitoring y".toList) ⟨false⟩ := by decide

example : read_hello ("<hello/>]]>]]>".toList) 0 = .exitFail := by decide

example : substIDENTIFIER ("m".toList) ("a\x7b\x7bIDENTIFIER\x7d\x7db".toList) =
    "amb".toList := by decide

example :
    get_netconf_schema_command ("ietf-yang-types".toList) ("2013-07-15".toList) =
    ("\n<rpc xmlns=\"urn:ietf:params:xml:ns:netconf:base:1.0\" message-id=\"104\">\n  <get-schema xmlns=\"urn:ietf:params:xml:ns:yang:ietf-netconf-monitoring\">\n    <identifier>ietf-yang-types</identifier>\n    <version>2013-07-15</version>\n    <format>yang</format>\n  </get-schema>\n</rpc>\n]]>]]>").toList := by decide

/-! ## XML extractor

`xml.etree.ElementTree` is Python library code outside this repository;
we embed its output: an element tree where each element has a
Clark-notation tag (`{namespace}local`), the text preceding its first
child (`None` for an empty element), and its list of children in
document order.  `find` searches direct children, `iter` the whole
subtree in document (pre-)order. -/

inductive XElem : Type where
  | mk (tag : List Char) (text : Option (List Char)) (children : List XElem)

mutual

def XElem.beq : XElem → XElem → Bool
  | .mk t1 x1 c1, .mk t2 x2 c2 => t1 == t2 && x1 == x2 && beqXList c1 c2

def beqXList : List XElem → List XElem → Bool
  | [], [] => true
  | a :: as, b :: bs => XElem.beq a b && beqXList as bs
  | _, _ => false

end

mutual

theorem XElem.beq_iff : ∀ a b : XElem, XElem.beq a b = true ↔ a = b
  | .mk t1 x1 c1, .mk t2 x2 c2 => by
    simp only [XElem.beq, Bool.and_eq_true, beq_iff_eq, XElem.mk.injEq]
    rw [beqXList_iff c1 c2]
    tauto

theorem beqXList_iff : ∀ as bs : List XElem, beqXList as bs = true ↔ as = bs
  | [], [] => by simp [beqXList]
  | a :: as, b :: bs => by
    simp only [beqXList, Bool.and_eq_true, List.cons.injEq]
    rw [XElem.beq_iff a b, beqXList_iff as bs]
  | [], _ :: _ => by simp [beqXList]
  | _ :: _, [] => by simp [beqXList]

end

instance : DecidableEq XElem := fun a b => decidable_of_iff _ (XElem.beq_iff a b)

def XElem.tag : XElem → List Char
  | .mk t _ _ => t

def XElem.text : XElem → Option (List Char)
  | .mk _ txt _ => txt

def XElem.children : XElem → List XElem
  | .mk _ _ cs => cs

mutual

/-- `root.iter(tag)`: every element of the subtree whose tag matches, in
document order (the element itself first, then its children's subtrees
left to right). -/
def XElem.iterTag (tag : List Char) : XElem → List XElem
  | .mk t txt cs =>
    (if t = tag then [XElem.mk t txt cs] else []) ++ iterTagList tag cs

def iterTagList (tag : List Char) : List XElem → List XElem
  | [] => []
  | c :: cs => XElem.iterTag tag c ++ iterTagList tag cs

end

/-- `elem.find(tag)`: the first direct child whose tag matches, if any. -/
def XElem.findChild (tag : List Char) (e : XElem) : Option XElem :=
  e.children.find? (fun c => c.tag = tag)

/-- Clark-notation tag of monitoring-namespace `schema` elements. -/
def nsSchemaTag : List Char :=
  ("\x7burn:ietf:params:xml:ns:yang:ietf-netconf-monitoring\x7dschema").toList

/-- Clark-notation tag of monitoring-namespace `identifier` elements. -/
def nsIdentifierTag : List Char :=
  ("\x7burn:ietf:params:xml:ns:yang:ietf-netconf-monitoring\x7didentifier").toList

/-- Clark-notation tag of monitoring-namespace `version` elements. -/
def nsVersionTag : List Char :=
  ("\x7burn:ietf:params:xml:ns:yang:ietf-netconf-monitoring\x7dversion").toList

/-- Clark-notation tag of monitoring-namespace `format` elements. -/
def nsFormatTag : List Char :=
  ("\x7burn:ietf:params:xml:ns:yang:ietf-netconf-monitoring\x7dformat").toList

/-- Clark-notation tag of monitoring-namespace `data` elements. -/
def nsDataTag : List Char :=
  ("\x7burn:ietf:params:xml:ns:yang:ietf-netconf-monitoring\x7ddata").toList

/-- The literal `"yang"` compared against the format text. -/
def yangChars : List Char := "yang".toList

/-- Python exceptions the parsing code can raise: `AttributeError` from
`None.text` when a `find` returned `None`, `TypeError` from `len(None)`. -/
inductive PyError where
  | attributeError
  | typeError
deriving DecidableEq, Repr

instance {ε α : Type} [DecidableEq ε] [DecidableEq α] : DecidableEq (Except ε α) := fun
  | .error e, .error f => decidable_of_iff (e = f) (by simp)
  | .error _, .ok _ => isFalse (by simp)
  | .ok _, .error _ => isFalse (by simp)
  | .ok a, .ok b => decidable_of_iff (a = b) (by simp)

/-- One iteration of the `parse_netconf_state` loop body on a `schema`
element: read `identifier`, `version` and `format` (each a `find`
followed by `.text`, so a missing child raises `AttributeError`), skip
the entry unless the format text equals `"yang"`, otherwise yield the
`(identifier, version)` pair (each side `None` for an empty element). -/
def parseSchemaEntry (s : XElem) :
    Except PyError (Option (Option (List Char) × Option (List Char))) :=
  match XElem.findChild nsIdentifierTag s with
  | none => .error .attributeError
  | some identE =>
    match XElem.findChild nsVersionTag s with
    | none => .error .attributeError
    | some versionE =>
      match XElem.findChild nsFormatTag s with
      | none => .error .attributeError
      | some formatE =>
        if formatE.text = some yangChars then
          .ok (some (identE.text, versionE.text))
        else
          .ok none

/-- The `parse_netconf_state` loop over the `schema` elements: the first
raised exception aborts the whole call; skipped entries contribute
nothing; kept entries are appended in order. -/
def parseSchemaList :
    List XElem → Except PyError (List (Option (List Char) × Option (List Char)))
  | [] => .ok []
  | s :: rest =>
    match parseSchemaEntry s with
    | .error e => .error e
    | .ok none => parseSchemaList rest
    | .ok (some p) =>
      match parseSchemaList rest with
      | .error e => .error e
      | .ok l => .ok (p :: l)

/-- `SSHClient.parse_netconf_state` on an already-parsed response tree. -/
def parse_netconf_state (root : XElem) :
    Except PyError (List (Option (List Char) × Option (List Char))) :=
  parseSchemaList (XElem.iterTag nsSchemaTag root)

/-- Modelled from the spec's words, for comparison: the descriptor a
single schema entry contributes — kept exactly when its `format` child's
text equals `"yang"`. -/
def yangDescriptorOf (s : XElem) :
    Option (Option (List Char) × Option (List Char)) :=
  match XElem.findChild nsFormatTag s with
  | some fe =>
    if fe.text = some yangChars then
      some ((XElem.findChild nsIdentifierTag s).bind XElem.text,
            (XElem.findChild nsVersionTag s).bind XElem.text)
    else none
  | none => none

/-- Modelled from the spec's words, for comparison: the descriptors of
the schema entries whose `format` child text equals `"yang"`, as
`(identifier, version)` pairs, in document order. -/
def yangSchemaDescriptors (root : XElem) :
    List (Option (List Char) × Option (List Char)) :=
  (XElem.iterTag nsSchemaTag root).filterMap yangDescriptorOf

/-- The character class removed by Python `str.strip()` (ASCII part; the
unicode whitespace code points Python also strips never arise here). -/
def pyIsSpace (c : Char) : Bool :=
  c = ' ' || c = '\t' || c = '\n' || c = '\r' || c = '\x0b' || c = '\x0c'

/-- Python `data.strip()`: drop leading and trailing whitespace. -/
def stripChars (s : List Char) : List Char :=
  ((s.dropWhile pyIsSpace).reverse.dropWhile pyIsSpace).reverse

/-- A file written by the program: its path and its content. -/
structure FileWrite where
  path : List Char
  content : List Char
deriving DecidableEq, Repr

/-- `SSHClient.parse_netconf_schema_yang` on an already-parsed response
tree: find the monitoring-namespace `data` child of the reply root
(`AttributeError` if absent), take its text (`len(None)` raises
`TypeError` when the element is empty), then write the stripped text to
`{output_path}/{identifier}@{version}.yang` and return the length of the
un-stripped text.  The first component lists the files written. -/
def parse_netconf_schema_yang (root : XElem)
    (identifier version output_path : List Char) :
    Except PyError (List FileWrite × Nat) :=
  match XElem.findChild nsDataTag root with
  | none => .error .attributeError
  | some d =>
    match d.text with
    | none => .error .typeError
    | some data =>
      .ok ([⟨output_path ++ "/".toList ++ identifier ++ "@".toList ++
              version ++ ".yang".toList, stripChars data⟩],
           data.length)

/-- A sample `rpc-reply` carrying two schema entries: one `yang`, one
`xml`. -/
def sampleStateReply : XElem :=
  .mk ("\x7burn:ietf:params:xml:ns:netconf:base:1.0\x7drpc-reply".toList) none
    [ .mk nsDataTag none
      [ .mk nsSchemaTag none
          [ .mk nsIdentifierTag (some ("ietf-yang-types".toList)) [],
            .mk nsVersionTag (some ("2013-07-15".toList)) [],
            .mk nsFormatTag (some yangChars) [] ],
        .mk nsSchemaTag none
          [ .mk nsIdentifierTag (some ("vendor-fmt".toList)) [],
            .mk nsVersionTag (some ("1.0".toList)) [],
            .mk nsFormatTag (some ("xml".toList)) [] ] ] ]

example : parse_netconf_state sampleStateReply =
    .ok [(some ("ietf-yang-types".toList), some ("2013-07-15".toList))] := by
  decide

example : yangSchemaDescriptors sampleStateReply =
    [(some ("ietf-yang-types".toList), some ("2013-07-15".toList))] := by
  decide

example : stripChars ("  a b \n".toList) = "a b".toList := by decide

/-! ## Lemmas about substring search and the framing loops -/

theorem containsSub_iff (p l : List Char) :
    containsSub p l = true ↔ p <:+: l := by
  induction l with
  | nil => simp [containsSub, List.isEmpty_iff]
  | cons c rest ih =>
    simp [containsSub, List.infix_cons_iff, ih, List.isPrefixOf_iff_prefix]

theorem containsSub_false_of_infix {p l₁ l₂ : List Char} (hsub : l₁ <:+: l₂)
    (h : containsSub p l₂ = false) : containsSub p l₁ = false := by
  rcases hc : containsSub p l₁ with _ | _
  · rfl
  · exact absurd ((containsSub_iff p l₂).mpr
      (((containsSub_iff p l₁).mp hc).trans hsub)) (by simp [h])

theorem readLoopBytewise_nil (acc : List Char) (rc : Nat) :
    readLoopBytewise acc [] rc = if rc = 0 then none else some acc := rfl

theorem readLoopBytewise_cons_found {acc : List Char} {c : Char}
    (rest : List Char) (rc : Nat)
    (h : containsSub markerChars (acc ++ [c]) = true) :
    readLoopBytewise acc (c :: rest) rc = some (acc ++ [c]) := by
  simp [readLoopBytewise, h]

theorem readLoopBytewise_cons_not {acc : List Char} {c : Char}
    (rest : List Char) (rc : Nat)
    (h : containsSub markerChars (acc ++ [c]) = false) :
    readLoopBytewise acc (c :: rest) rc = readLoopBytewise (acc ++ [c]) rest rc := by
  simp [readLoopBytewise, h]

theorem readLoopBytewise_no_marker : ∀ (stream acc : List Char) (rc : Nat),
    containsSub markerChars (acc ++ stream) = false →
    readLoopBytewise acc stream rc = if rc = 0 then none else some (acc ++ stream)
  | [], acc, rc, h => by simp [readLoopBytewise_nil]
  | c :: rest, acc, rc, h => by
    have hc : containsSub markerChars (acc ++ [c]) = false := by
      refine containsSub_false_of_infix ?_ h
      exact (((List.prefix_append_right_inj acc).mpr ⟨rest, rfl⟩)).isInfix
    rw [readLoopBytewise_cons_not rest rc hc]
    have ih := readLoopBytewise_no_marker rest (acc ++ [c]) rc
      (by simpa [List.append_assoc] using h)
    simpa [List.append_assoc] using ih

theorem readLoopBytewise_finds_marker : ∀ (a acc b : List Char) (rc : Nat),
    containsSub markerChars (acc ++ a ++ markerChars.take 5) = false →
    readLoopBytewise acc (a ++ markerChars ++ b) rc = some (acc ++ a ++ markerChars)
  | [], acc, b, rc, h => by
    simp only [List.append_nil, List.nil_append] at h ⊢
    have key : ∀ k : List Char, k <+: markerChars.take 5 →
        containsSub markerChars (acc ++ k) = false := fun k hk =>
      containsSub_false_of_infix ((List.prefix_append_right_inj acc).mpr hk).isInfix h
    have h6 : containsSub markerChars (acc ++ markerChars) = true := by
      rw [containsSub_iff]
      exact (List.suffix_append acc markerChars).isInfix
    show readLoopBytewise acc (']' :: ']' :: '>' :: ']' :: ']' :: '>' :: b) rc =
      some (acc ++ markerChars)
    rw [readLoopBytewise_cons_not _ _ (key [']'] (by decide))]
    rw [readLoopBytewise_cons_not _ _
      (by simpa [List.append_assoc] using key [']', ']'] (by decide))]
    rw [readLoopBytewise_cons_not _ _
      (by simpa [List.append_assoc] using key [']', ']', '>'] (by decide))]
    rw [readLoopBytewise_cons_not _ _
      (by simpa [List.append_assoc] using key [']', ']', '>', ']'] (by decide))]
    rw [readLoopBytewise_cons_not _ _
      (by simpa [List.append_assoc] using key [']', ']', '>', ']', ']'] (by decide))]
    rw [readLoopBytewise_cons_found _ _ (by simpa [List.append_assoc] using h6)]
    simp [List.append_assoc, markerChars]
  | c :: a', acc, b, rc, h => by
    have hc : containsSub markerChars (acc ++ [c]) = false := by
      refine containsSub_false_of_infix ?_ h
      refine List.IsPrefix.isInfix ?_
      have : acc ++ [c] <+: acc ++ (c :: a') :=
        (List.prefix_append_right_inj acc).mpr ⟨a', rfl⟩
      exact this.trans (List.prefix_append _ _)
    show readLoopBytewise acc (c :: ((a' ++ markerChars) ++ b)) rc =
      some (acc ++ (c :: a') ++ markerChars)
    rw [readLoopBytewise_cons_not _ _ hc]
    have ih := readLoopBytewise_finds_marker a' (acc ++ [c]) b rc
      (by simpa [List.append_assoc] using h)
    simpa [List.append_assoc] using ih

theorem removeMarker_cons {c : Char} {s : List Char}
    (h : ¬ markerChars.isPrefixOf (c :: s)) :
    removeMarker (c :: s) = c :: removeMarker s := by
  conv_lhs => rw [removeMarker.eq_def]
  split
  · rename_i rest heq
    exfalso
    apply h
    rw [List.isPrefixOf_iff_prefix, heq]
    exact ⟨rest, rfl⟩
  · rename_i c2 rest2 hne
    injection hne with h1 h2
    subst h1; subst h2
    rfl
  · rename_i hne
    exact absurd hne (by simp)

theorem removeMarker_no_marker : ∀ (s : List Char),
    containsSub markerChars s = false → removeMarker s = s
  | [], _ => rfl
  | c :: rest, h => by
    have h' : markerChars.isPrefixOf (c :: rest) = false ∧
        containsSub markerChars rest = false := by
      simpa [containsSub] using h
    rw [removeMarker_cons (by simp [h'.1]), removeMarker_no_marker rest h'.2]

theorem removeMarker_append_marker : ∀ (a : List Char),
    containsSub markerChars (a ++ markerChars.take 5) = false →
    removeMarker (a ++ markerChars) = a
  | [], _ => rfl
  | c :: a', h => by
    have hnp : ¬ markerChars.isPrefixOf (c :: (a' ++ markerChars)) = true := by
      intro hp
      rw [List.isPrefixOf_iff_prefix] at hp
      have htake : markerChars = ((c :: a') ++ markerChars).take 6 := by
        have := List.prefix_iff_eq_take.mp hp
        simpa using this
      have hs : ((c :: a') ++ markerChars).take ((c :: a').length + 5)
          = (c :: a') ++ markerChars.take 5 := by
        rw [List.take_append_eq_append_take]
        congr 1
        · exact List.take_of_length_le (by omega)
        · congr 1
          omega
      have hpre6 : markerChars <+:
          ((c :: a') ++ markerChars).take ((c :: a').length + 5) := by
        have h66 := List.take_prefix 6
          (((c :: a') ++ markerChars).take ((c :: a').length + 5))
        rw [List.take_take] at h66
        have hm : min 6 ((c :: a').length + 5) = 6 := by
          simp only [List.length_cons]
          omega
        rw [hm, ← htake] at h66
        exact h66
      have hcon : containsSub markerChars ((c :: a') ++ markerChars.take 5) = true := by
        rw [containsSub_iff]
        exact (hs ▸ hpre6).isInfix
      simp only [List.cons_append] at h hcon
      exact absurd hcon (by simp [h])
    have htail : containsSub markerChars (a' ++ markerChars.take 5) = false := by
      refine containsSub_false_of_infix ?_ h
      exact (show (a' ++ markerChars.take 5) <:+ c :: (a' ++ markerChars.take 5)
        from ⟨[c], rfl⟩).isInfix
    show removeMarker (c :: (a' ++ markerChars)) = c :: a'
    rw [removeMarker_cons hnp, removeMarker_append_marker a' htail]

theorem splitLinesAux_flatten : ∀ (s cur : List Char),
    (splitLinesAux cur s).flatten = cur ++ s
  | [], cur => by
    rcases hc : cur.isEmpty with _ | _
    · simp [splitLinesAux, hc]
    · simp [splitLinesAux, hc, List.isEmpty_iff.mp hc]
  | c :: rest, cur => by
    by_cases hc : c = '\n'
    · subst hc
      simp [splitLinesAux, splitLinesAux_flatten rest [], List.append_assoc]
    · simp [splitLinesAux, hc, splitLinesAux_flatten rest (cur ++ [c]),
        List.append_assoc]

theorem splitLinesKeep_flatten (s : List Char) : (splitLinesKeep s).flatten = s := by
  simpa [splitLinesKeep] using splitLinesAux_flatten s []

theorem infix_of_mem_splitLines {l s : List Char} (h : l ∈ splitLinesKeep s) :
    l <:+: s :=
  splitLinesKeep_flatten s ▸ List.infix_of_mem_flatten h

theorem lineLoop_all_no_marker : ∀ (ls : List (List Char)),
    (∀ l ∈ ls, containsSub markerChars l = false) → lineLoop ls = ls.flatten
  | [], _ => rfl
  | l :: rest, h => by
    simp [lineLoop, h l (by simp),
      lineLoop_all_no_marker rest (fun x hx => h x (by simp [hx]))]

theorem stripChars_decomp (s : List Char) :
    ∃ pre post : List Char, (∀ c ∈ pre, pyIsSpace c = true) ∧
      (∀ c ∈ post, pyIsSpace c = true) ∧ s = pre ++ stripChars s ++ post := by
  refine ⟨s.takeWhile pyIsSpace,
    ((s.dropWhile pyIsSpace).reverse.takeWhile pyIsSpace).reverse, ?_, ?_, ?_⟩
  · exact fun c hc => List.mem_takeWhile_imp hc
  · intro c hc
    rw [List.mem_reverse] at hc
    exact List.mem_takeWhile_imp hc
  · have hd : s.dropWhile pyIsSpace =
        ((s.dropWhile pyIsSpace).reverse.dropWhile pyIsSpace).reverse ++
        ((s.dropWhile pyIsSpace).reverse.takeWhile pyIsSpace).reverse := by
      rw [← List.reverse_append, List.takeWhile_append_dropWhile, List.reverse_reverse]
    conv_lhs => rw [← List.takeWhile_append_dropWhile pyIsSpace s, hd]
    simp [stripChars, List.append_assoc]

theorem stripChars_length_le (s : List Char) :
    (stripChars s).length ≤ s.length := by
  obtain ⟨pre, post, _, _, hs⟩ := stripChars_decomp s
  have := congrArg List.length hs
  simp only [List.length_append] at this
  omega

theorem suffix_of_suffix_of_length_le {α : Type} {l₁ l₂ l₃ : List α}
    (h1 : l₁ <:+ l₃) (h2 : l₂ <:+ l₃) (hl : l₁.length ≤ l₂.length) :
    l₁ <:+ l₂ := by
  obtain ⟨t1, ht1⟩ := h1
  obtain ⟨t2, ht2⟩ := h2
  have e1 : l₃.drop t1.length = l₁ := by rw [← ht1, List.drop_left]
  have e2 : l₃.drop t2.length = l₂ := by rw [← ht2, List.drop_left]
  have hlen : t2.length ≤ t1.length := by
    have g1 := congrArg List.length ht1
    have g2 := congrArg List.length ht2
    simp only [List.length_append] at g1 g2
    omega
  have key : l₂.drop (t1.length - t2.length) = l₁ := by
    rw [← e2, List.drop_drop]
    rw [show t2.length + (t1.length - t2.length) = t1.length from by omega]
    exact e1
  exact key ▸ List.drop_suffix _ _

/-! ## Template substitution lemmas (request builder) -/

/-- The `{{IDENTIFIER}}` placeholder. -/
def patIDENTIFIER : List Char := "\x7b\x7bIDENTIFIER\x7d\x7d".toList

/-- The `{{VERSION}}` placeholder. -/
def patVERSION : List Char := "\x7b\x7bVERSION\x7d\x7d".toList

/-- The last seven characters of every marker-terminated template:
a newline followed by the marker. -/
def markerTail : List Char := "\n]]>]]>".toList

/-- A transport message ends with the marker on its own trailing line. -/
def endsWithMarkerLine (msg : List Char) : Prop :=
  (markerTail ++ ['\n']) <:+ msg

instance (msg : List Char) : Decidable (endsWithMarkerLine msg) := by
  unfold endsWithMarkerLine
  infer_instance

theorem substVERSION_pat (v rest : List Char) :
    substVERSION v (patVERSION ++ rest) = v ++ substVERSION v rest := rfl

set_option maxHeartbeats 1000000 in
theorem substVERSION_cons (v : List Char) {c : Char} {s : List Char}
    (h : ¬ patVERSION.isPrefixOf (c :: s)) :
    substVERSION v (c :: s) = c :: substVERSION v s := by
  rw [substVERSION.eq_def]
  split
  · rename_i rest heq
    exfalso
    apply h
    rw [List.isPrefixOf_iff_prefix, heq]
    exact ⟨rest, rfl⟩
  · rename_i c2 rest2 hne
    injection hne with h1 h2
    subst h1; subst h2
    rfl
  · rename_i hne
    exact absurd hne (by simp)

/-- The `{{VERSION}}` placeholder shares no character with `markerTail`,
so no placeholder occurrence can overlap a trailing `"\n]]>]]>"`. -/
theorem no_overlap_patVERSION_markerTail (u rest : List Char)
    (hu : u ++ markerTail = patVERSION ++ rest) (hlen : rest.length < 7) :
    False := by
  have h7 : markerTail.length = 7 := by decide
  have h11 : patVERSION.length = 11 := by decide
  have hul : u.length = 4 + rest.length := by
    have := congrArg List.length hu
    simp only [List.length_append, h7, h11] at this
    omega
  have hlt : u.length < (u ++ markerTail).length := by
    simp only [List.length_append, h7]
    omega
  have hchar : (u ++ markerTail).get ⟨u.length, hlt⟩ = '\n' := by
    rw [List.get_eq_getElem, List.getElem_append_right (Nat.le_refl u.length)]
    simp [markerTail]
  have hlt2 : u.length < patVERSION.length := by omega
  have hlt3 : u.length < (patVERSION ++ rest).length := by
    simp only [List.length_append]
    omega
  have hchar2 : (patVERSION ++ rest).get ⟨u.length, hlt3⟩ = '\n' := by
    rw [List.get_eq_getElem] at hchar ⊢
    exact (List.getElem_of_eq hu hlt).symm.trans hchar
  rw [List.get_eq_getElem, List.getElem_append_left hlt2] at hchar2
  have hall : ∀ i : Nat, (hi : i < patVERSION.length) → patVERSION[i] ≠ '\n' := by
    decide
  exact hall u.length hlt2 hchar2

/-- Substituting the version placeholder — whatever the substituted value
is — preserves a trailing `"\n]]>]]>"`. -/
theorem substVERSION_preserves_markerTail (v : List Char) :
    ∀ (n : Nat) (s : List Char),
    s.length ≤ n → markerTail <:+ s → markerTail <:+ substVERSION v s := by
  intro n
  induction n with
  | zero =>
    intro s hn hT
    have h7 : markerTail.length = 7 := by decide
    have := hT.length_le
    omega
  | succ n ih =>
    intro s hn hT
    have h7 : markerTail.length = 7 := by decide
    have h11 : patVERSION.length = 11 := by decide
    rcases s with _ | ⟨c, s'⟩
    · have := hT.length_le
      simp only [h7, List.length_nil] at this
      omega
    · by_cases hp : patVERSION.isPrefixOf (c :: s') = true
      · obtain ⟨rest, hrest⟩ := List.isPrefixOf_iff_prefix.mp hp
        rw [← hrest] at hT hn ⊢
        rw [substVERSION_pat]
        by_cases h7r : 7 ≤ rest.length
        · have hTr : markerTail <:+ rest :=
            suffix_of_suffix_of_length_le hT (List.suffix_append patVERSION rest)
              (by omega)
          have hrn : rest.length ≤ n := by
            simp only [List.length_append, h11] at hn
            omega
          obtain ⟨t, ht⟩ := ih rest hrn hTr
          exact ⟨v ++ t, by rw [← ht]; simp [List.append_assoc]⟩
        · obtain ⟨u, hu⟩ := hT
          exact (no_overlap_patVERSION_markerTail u rest hu (by omega)).elim
      · rw [substVERSION_cons v (by simpa using hp)]
        rcases List.suffix_cons_iff.mp hT with heq | hT'
        · rw [show markerTail = '\n' :: ']' :: ']' :: '>' :: ']' :: ']' :: '>' :: []
            from rfl] at heq
          injection heq with hc hrest
          subst hc
          rw [← hrest]
          exact List.suffix_refl _
        · have hsn : s'.length ≤ n := by
            simp only [List.length_cons] at hn
            omega
          obtain ⟨t, ht⟩ := ih s' hsn hT'
          exact ⟨c :: t, by rw [List.cons_append, ht]⟩

/-- Modelled from the spec's words: XML escaping of the five reserved
characters, as the spec requires for values substituted into the
`get-schema` template. -/
def xmlEscape : List Char → List Char
  | [] => []
  | c :: rest =>
    (if c = '&' then "&amp;".toList
     else if c = '<' then "&lt;".toList
     else if c = '>' then "&gt;".toList
     else if c = '"' then "&quot;".toList
     else if c = '\x27' then "&apos;".toList
     else [c]) ++ xmlEscape rest

/-- A character the spec considers XML-reserved in substituted values. -/
def xmlReserved (c : Char) : Bool :=
  c = '&' || c = '<' || c = '>' || c = '"' || c = '\x27'

/-- Modelled from the spec's words: the `get-schema` request built with
XML-escaped values, as the spec demands. -/
def get_netconf_schema_command_escaped (identifier version : List Char) :
    List Char :=
  substVERSION (xmlEscape version)
    (substIDENTIFIER (xmlEscape identifier) netconf_get_schema)

theorem xmlEscape_id : ∀ (s : List Char),
    (∀ c ∈ s, xmlReserved c = false) → xmlEscape s = s
  | [], _ => rfl
  | c :: rest, h => by
    have hc := h c (by simp)
    simp only [xmlReserved, Bool.or_eq_false_iff, decide_eq_false_iff_not] at hc
    obtain ⟨⟨⟨⟨h1, h2⟩, h3⟩, h4⟩, h5⟩ := hc
    simp only [xmlEscape, h1, h2, h3, h4, h5, if_false]
    rw [xmlEscape_id rest (fun x hx => h x (by simp [hx]))]
    rfl

/-! ## Lemmas about the schema-list parser -/

theorem parseSchemaEntry_error_of_bad (s : XElem)
    (h : XElem.findChild nsIdentifierTag s = none ∨
         XElem.findChild nsVersionTag s = none ∨
         XElem.findChild nsFormatTag s = none) :
    parseSchemaEntry s = .error .attributeError := by
  rcases hi : XElem.findChild nsIdentifierTag s with _ | ie
  · simp [parseSchemaEntry, hi]
  · rcases hv : XElem.findChild nsVersionTag s with _ | ve
    · simp [parseSchemaEntry, hi, hv]
    · rcases hf : XElem.findChild nsFormatTag s with _ | fe
      · simp [parseSchemaEntry, hi, hv, hf]
      · rcases h with h | h | h <;> simp_all

theorem parseSchemaEntry_error_attr (e : XElem) {err : PyError}
    (h : parseSchemaEntry e = .error err) : err = .attributeError := by
  unfold parseSchemaEntry at h
  rcases hi : XElem.findChild nsIdentifierTag e with _ | ie <;> rw [hi] at h
  · exact (Except.error.inj h).symm
  · rcases hv : XElem.findChild nsVersionTag e with _ | ve <;> rw [hv] at h
    · exact (Except.error.inj h).symm
    · rcases hf : XElem.findChild nsFormatTag e with _ | fe <;> rw [hf] at h
      · exact (Except.error.inj h).symm
      · by_cases hy : fe.text = some yangChars <;> simp [hy] at h

theorem parseSchemaList_error_of_bad : ∀ (ls : List XElem) (s : XElem),
    s ∈ ls →
    (XElem.findChild nsIdentifierTag s = none ∨
     XElem.findChild nsVersionTag s = none ∨
     XElem.findChild nsFormatTag s = none) →
    parseSchemaList ls = .error .attributeError
  | [], s, hmem, _ => absurd hmem (by simp)
  | e :: rest, s, hmem, hbad => by
    rcases List.mem_cons.mp hmem with heq | htail
    · subst heq
      simp [parseSchemaList, parseSchemaEntry_error_of_bad s hbad]
    · have hrest := parseSchemaList_error_of_bad rest s htail hbad
      rcases he : parseSchemaEntry e with err | p
      · have herr := parseSchemaEntry_error_attr e he
        subst herr
        simp [parseSchemaList, he]
      · rcases p with _ | pr <;> simp [parseSchemaList, he, hrest]

theorem parseSchemaList_ok_of_complete : ∀ (ls : List XElem),
    (∀ s ∈ ls, (XElem.findChild nsIdentifierTag s).isSome = true ∧
               (XElem.findChild nsVersionTag s).isSome = true ∧
               (XElem.findChild nsFormatTag s).isSome = true) →
    parseSchemaList ls = .ok (ls.filterMap yangDescriptorOf)
  | [], _ => rfl
  | s :: rest, h => by
    obtain ⟨h1, h2, h3⟩ := h s (by simp)
    obtain ⟨ie, hie⟩ := Option.isSome_iff_exists.mp h1
    obtain ⟨ve, hve⟩ := Option.isSome_iff_exists.mp h2
    obtain ⟨fe, hfe⟩ := Option.isSome_iff_exists.mp h3
    have hrest := parseSchemaList_ok_of_complete rest (fun x hx => h x (by simp [hx]))
    by_cases hy : fe.text = some yangChars
    · simp [parseSchemaList, parseSchemaEntry, hie, hve, hfe, hy, hrest,
        List.filterMap_cons, yangDescriptorOf]
    · simp [parseSchemaList, parseSchemaEntry, hie, hve, hfe, hy, hrest,
        List.filterMap_cons, yangDescriptorOf]

/-! ## Claims about the schema-list extraction (C1, C2) -/

/-- A `schema` entry advertising format `yang` but carrying no `version`
child. -/
def sampleMissingVersion : XElem :=
  .mk nsSchemaTag none
    [ .mk nsIdentifierTag (some ("m1".toList)) [],
      .mk nsFormatTag (some yangChars) [] ]

/-- A `schema` entry with `identifier` and `version` but no `format`
child. -/
def sampleMissingFormat : XElem :=
  .mk nsSchemaTag none
    [ .mk nsIdentifierTag (some ("m2".toList)) [],
      .mk nsVersionTag (some ("1.0".toList)) [] ]

/-- C1: for every schema-list response, `parse_netconf_state` returns
exactly the descriptors of the schema entries whose `format` child text
equals `"yang"` (case-sensitive), as `(identifier, version)` pairs in
document order (first conjunct, for responses whose entries all carry
their three children), and raises an error — rather than silently
dropping the entry — whenever `identifier` or `version` is missing on an
included (format-`yang`) entry (second conjunct). -/
theorem claim_C1 (root : XElem) :
    ((∀ s ∈ XElem.iterTag nsSchemaTag root,
        (XElem.findChild nsIdentifierTag s).isSome = true ∧
        (XElem.findChild nsVersionTag s).isSome = true ∧
        (XElem.findChild nsFormatTag s).isSome = true) →
      parse_netconf_state root = .ok (yangSchemaDescriptors root)) ∧
    (∀ s ∈ XElem.iterTag nsSchemaTag root,
      (∃ fe, XElem.findChild nsFormatTag s = some fe ∧ fe.text = some yangChars) →
      (XElem.findChild nsIdentifierTag s = none ∨
       XElem.findChild nsVersionTag s = none) →
      parse_netconf_state root = .error .attributeError) := by
  constructor
  · intro h
    exact parseSchemaList_ok_of_complete _ h
  · intro s hmem _ hbad
    exact parseSchemaList_error_of_bad _ s hmem (by tauto)

/-- C1 witness: on the sample two-entry reply the parser keeps exactly
the `yang` descriptor; on an included entry with a missing version it
raises. -/
theorem claim_C1_witness :
    parse_netconf_state sampleStateReply =
      .ok [(some ("ietf-yang-types".toList), some ("2013-07-15".toList))] ∧
    parse_netconf_state sampleMissingVersion = .error .attributeError := by
  constructor
  · exact ((claim_C1 sampleStateReply).1 (by decide)).trans (by decide)
  · exact (claim_C1 sampleMissingVersion).2 sampleMissingVersion (by decide)
      ⟨XElem.mk nsFormatTag (some yangChars) [], by decide, by decide⟩
      (Or.inr (by decide))

/-- C2 counterexample: a schema entry with no `format` child makes
`parse_netconf_state` raise (`None.text` → `AttributeError`) instead of
excluding the entry without error. -/
theorem claim_C2_counterexample :
    parse_netconf_state sampleMissingFormat = .error .attributeError ∧
    ∀ l, parse_netconf_state sampleMissingFormat ≠ .ok l := by
  refine ⟨by decide, fun l h => ?_⟩
  rw [(by decide : parse_netconf_state sampleMissingFormat =
    .error .attributeError)] at h
  exact Except.noConfusion h

/-- C2 amended: a schema entry with no `format` child element is not
treated as "not yang"; the extraction raises `AttributeError` for the
whole response instead of excluding the entry. -/
theorem claim_C2_amended (root s : XElem)
    (hmem : s ∈ XElem.iterTag nsSchemaTag root)
    (hfmt : XElem.findChild nsFormatTag s = none) :
    parse_netconf_state root = .error .attributeError :=
  parseSchemaList_error_of_bad _ s hmem (Or.inr (Or.inr hfmt))

/-- C2 amended, witness at the concrete missing-format entry. -/
theorem claim_C2_amended_witness :
    parse_netconf_state sampleMissingFormat = .error .attributeError :=
  claim_C2_amended sampleMissingFormat sampleMissingFormat (by decide) (by decide)

/-! ## Claims about the handshake and the framing reader (C3, C4) -/

/-- C3: if the device hello does not advertise the
`ietf-netconf-monitoring` capability, the handshake fails (the
`sys.exit(1)` branch modelled as `capabilityMissing`) and the client's
own hello message is never written to the transport. -/
theorem claim_C3 (stream : List Char) (rc : Nat) (raw : List Char)
    (hread : readLoopBytewise [] stream rc = some raw)
    (hmon : containsSub monitoringChars (removeMarker raw) = false) :
    performHandshake stream rc = (.capabilityMissing, []) := by
  unfold performHandshake read_hello
  rw [hread]
  simp [hmon]

/-- C3 witness: a hello without the capability, terminated by the
marker. -/
theorem claim_C3_witness :
    performHandshake ("<hello/>]]>]]>".toList) 0 = (.capabilityMissing, []) :=
  claim_C3 ("<hello/>]]>]]>".toList) 0 ("<hello/>]]>]]>".toList)
    (by decide) (by decide)

/-- C4 counterexample: the transport closes (exit code 1) before any
marker has been seen, and the readers do not fail: `read_command_output`
returns the partial buffer as an ordinary message, and `read_hello`
accepts a partial buffer that happens to contain the capability
substring. -/
theorem claim_C4_counterexample :
    read_command_output ⟨false⟩ ("<a".toList) 1 = (.ok ("<a".toList), ⟨false⟩) ∧
    read_hello ("x ietf-netconf-monitoring".toList) 1 =
      .ok ("x ietf-netconf-monitoring".toList) ⟨false⟩ :=
  ⟨by decide, by decide⟩

/-- C4 amended: when the transport closes before the marker is seen,
neither reader fails with an error: in line-wise mode
`read_command_output` returns the partial buffer at EOF; in byte-wise
mode it returns the partial buffer when the exit code is nonzero and
loops forever when the exit code is 0; and `read_hello` (byte-wise, exit
code nonzero) applies the capability check to the partial buffer and
returns it as the hello when the check passes. -/
theorem claim_C4_amended (stream : List Char) (rc : Nat)
    (hno : containsSub markerChars stream = false) :
    (read_command_output ⟨true⟩ stream rc = (.ok stream, ⟨true⟩)) ∧
    (read_command_output ⟨false⟩ stream rc =
      ((if rc = 0 then .hang else .ok stream), ⟨false⟩)) ∧
    (rc ≠ 0 → read_hello stream rc =
      (if containsSub monitoringChars stream then
        .ok stream ⟨containsSub ['\n'] stream⟩
      else .exitFail)) := by
  have hb := readLoopBytewise_no_marker stream [] rc (by simpa using hno)
  simp only [List.nil_append] at hb
  have hid : removeMarker stream = stream := removeMarker_no_marker stream hno
  refine ⟨?_, ?_, ?_⟩
  · have hall : ∀ l ∈ splitLinesKeep stream, containsSub markerChars l = false :=
      fun l hl => containsSub_false_of_infix (infix_of_mem_splitLines hl) hno
    simp [read_command_output, lineLoop_all_no_marker _ hall,
      splitLinesKeep_flatten, hid]
  · cases rc with
    | zero => simp [read_command_output, hb]
    | succ n => simp [read_command_output, hb, hid]
  · intro hrc0
    unfold read_hello
    rw [hb, if_neg hrc0]
    simp [hid]

/-- C4 amended, witness: closed transport after `"ab"`, exit code 2. -/
theorem claim_C4_amended_witness :
    read_command_output ⟨true⟩ ("ab".toList) 2 = (.ok ("ab".toList), ⟨true⟩) ∧
    read_command_output ⟨false⟩ ("ab".toList) 2 = (.ok ("ab".toList), ⟨false⟩) ∧
    read_hello ("ab".toList) 2 = .exitFail := by
  have h := claim_C4_amended ("ab".toList) 2 (by decide)
  refine ⟨h.1, ?_, ?_⟩
  · rw [h.2.1]
    decide
  · rw [h.2.2 (by decide)]
    decide

/-! ## Claims about the written client messages (C5, C8) -/

theorem suffix_append_left {α : Type} {l y : List α} (x : List α)
    (h : l <:+ y) : l <:+ x ++ y := by
  obtain ⟨t, ht⟩ := h
  exact ⟨x ++ t, by rw [List.append_assoc, ht]⟩

theorem suffix_append_both {α : Type} {l y : List α} (z : List α)
    (h : l <:+ y) : l ++ z <:+ y ++ z := by
  obtain ⟨t, ht⟩ := h
  exact ⟨t, by rw [← List.append_assoc, ht]⟩

/-- C5 counterexample: the client hello as actually written
(`write_command(netconf_hello)`) contains no `]]>]]>` marker at all, so
not every client message is terminated by the marker on its own trailing
line. -/
theorem claim_C5_counterexample :
    containsSub markerChars (write_command netconf_hello) = false ∧
    ¬ endsWithMarkerLine (write_command netconf_hello) :=
  ⟨by decide, by decide⟩

set_option maxHeartbeats 4000000 in
/-- C5 amended: the state query and every get-schema request are written
with the marker `]]>]]>` on their own trailing line, but the client hello
is written with no marker at all. -/
theorem claim_C5_amended :
    endsWithMarkerLine (write_command netconf_state) ∧
    (∀ identifier version : List Char,
      endsWithMarkerLine
        (write_command (get_netconf_schema_command identifier version))) ∧
    containsSub markerChars (write_command netconf_hello) = false := by
  refine ⟨by decide, ?_, by decide⟩
  intro i v
  have hsub : substIDENTIFIER i netconf_get_schema =
      ("\n<rpc xmlns=\"urn:ietf:params:xml:ns:netconf:base:1.0\" message-id=\"104\">\n  <get-schema xmlns=\"urn:ietf:params:xml:ns:yang:ietf-netconf-monitoring\">\n    <identifier>").toList ++
      (i ++ ("</identifier>\n    <version>\x7b\x7bVERSION\x7d\x7d</version>\n    <format>yang</format>\n  </get-schema>\n</rpc>\n]]>]]>").toList) := rfl
  have hB : markerTail <:+
      ("</identifier>\n    <version>\x7b\x7bVERSION\x7d\x7d</version>\n    <format>yang</format>\n  </get-schema>\n</rpc>\n]]>]]>").toList := by
    decide
  have h1 : markerTail <:+ substIDENTIFIER i netconf_get_schema := by
    rw [hsub]
    exact suffix_append_left _ (suffix_append_left _ hB)
  have h2 : markerTail <:+ get_netconf_schema_command i v :=
    substVERSION_preserves_markerTail v
      (substIDENTIFIER i netconf_get_schema).length _ (Nat.le_refl _) h1
  exact suffix_append_both ['\n'] h2

/-- C8 counterexample: an identifier containing the reserved character
`<` is substituted verbatim — the built request differs from the escaped
build and contains the raw `<identifier>a<b</identifier>` text, which is
not well-formed XML. -/
theorem claim_C8_counterexample :
    get_netconf_schema_command ("a<b".toList) ("1".toList) ≠
      get_netconf_schema_command_escaped ("a<b".toList) ("1".toList) ∧
    containsSub ("<identifier>a<b</identifier>".toList)
      (get_netconf_schema_command ("a<b".toList) ("1".toList)) = true :=
  ⟨by decide, by decide⟩

/-- C8 amended: the get-schema request is built from the fixed RPC
template by substituting identifier and version verbatim with no XML
escaping; it coincides with the spec's escaped build exactly when both
values contain no XML-reserved characters (so the result is well-formed
only in that case). -/
theorem claim_C8_amended (identifier version : List Char)
    (hi : ∀ c ∈ identifier, xmlReserved c = false)
    (hv : ∀ c ∈ version, xmlReserved c = false) :
    get_netconf_schema_command identifier version =
      get_netconf_schema_command_escaped identifier version := by
  unfold get_netconf_schema_command get_netconf_schema_command_escaped
  rw [xmlEscape_id identifier hi, xmlEscape_id version hv]

/-- C8 amended, witness at reserved-free values. -/
theorem claim_C8_amended_witness :
    get_netconf_schema_command ("m".toList) ("1".toList) =
      get_netconf_schema_command_escaped ("m".toList) ("1".toList) :=
  claim_C8_amended ("m".toList) ("1".toList) (by decide) (by decide)

/-! ## Claims about framing-mode selection and split markers (C6, C7) -/

/-- C6: framing-mode selection is a deterministic function of the device
hello — a payload containing a newline before the marker selects
line-wise mode (`newline_data = true`), one without selects byte-wise —
and every subsequent `read_command_output` returns the session with the
selected mode unchanged. -/
theorem claim_C6 (a b : List Char) (hrc : Nat)
    (hno : containsSub markerChars (a ++ markerChars.take 5) = false)
    (hmon : containsSub monitoringChars a = true) :
    read_hello (a ++ markerChars ++ b) hrc = .ok a ⟨containsSub ['\n'] a⟩ ∧
    (∀ (sess : Session) (stream : List Char) (rc : Nat),
      (read_command_output sess stream rc).2 = sess) := by
  constructor
  · unfold read_hello
    rw [readLoopBytewise_finds_marker a [] b hrc (by simpa using hno)]
    simp only [List.nil_append]
    rw [removeMarker_append_marker a hno]
    simp [hmon]
  · intro sess stream rc
    unfold read_command_output
    by_cases h : sess.newline_data
    · simp [h]
    · rcases hx : readLoopBytewise [] stream rc with _ | raw <;> simp [h, hx]

/-- C6 witness: a hello payload with a newline before the marker selects
line-wise mode. -/
theorem claim_C6_witness :
    read_hello ("ietf-netconf-monitoring\n]]>]]>xx".toList) 0 =
      .ok ("ietf-netconf-monitoring\n".toList) ⟨true⟩ := by
  have h := (claim_C6 ("ietf-netconf-monitoring\n".toList) ("xx".toList) 0
    (by decide) (by decide)).1
  rw [show ("ietf-netconf-monitoring\n".toList ++ markerChars ++ "xx".toList) =
    ("ietf-netconf-monitoring\n]]>]]>xx".toList) from by decide] at h
  rw [h]
  decide

/-- C7: in byte-wise mode a marker split across two read chunks is still
detected — the cumulative buffer is searched, not each chunk — and the
single de-framed message is returned with the marker removed (content
after the marker is never read). -/
theorem claim_C7 (c1 c2 p q a b : List Char) (rc : Nat)
    (hpq : p ++ q = markerChars) (_hp : p ≠ []) (_hq : q ≠ [])
    (hc1 : c1 = a ++ p) (hc2 : c2 = q ++ b)
    (hno : containsSub markerChars (a ++ markerChars.take 5) = false) :
    read_command_output ⟨false⟩ (c1 ++ c2) rc = (.ok a, ⟨false⟩) := by
  subst hc1; subst hc2
  have hstream : (a ++ p) ++ (q ++ b) = a ++ markerChars ++ b := by
    rw [← hpq]
    simp [List.append_assoc]
  rw [hstream]
  have hloop := readLoopBytewise_finds_marker a [] b rc (by simpa using hno)
  simp only [List.nil_append, List.append_assoc] at hloop
  simp [read_command_output, hloop, removeMarker_append_marker a hno]

/-- C7 witness: the marker arrives as `"]]>"` + `"]]>"` split across the
two chunks. -/
theorem claim_C7_witness :
    read_command_output ⟨false⟩ ("<x/>]]>".toList ++ "]]>tail".toList) 0 =
      (.ok ("<x/>".toList), ⟨false⟩) :=
  claim_C7 ("<x/>]]>".toList) ("]]>tail".toList) ("]]>".toList) ("]]>".toList)
    ("<x/>".toList) ("tail".toList) 0 (by decide) (by decide) (by decide)
    (by decide) (by decide) (by decide)

/-! ## Claims about schema persistence (C9, C10) -/

/-- A get-schema reply whose monitoring `data` element is present but
empty (`<data/>`): ElementTree reports its text as `None`. -/
def sampleEmptyDataReply : XElem :=
  .mk ("\x7burn:ietf:params:xml:ns:netconf:base:1.0\x7drpc-reply".toList) none
    [ .mk nsDataTag none [] ]

/-- A get-schema reply whose `data` element carries the text `" a "`. -/
def sampleDataReply : XElem :=
  .mk ("\x7burn:ietf:params:xml:ns:netconf:base:1.0\x7drpc-reply".toList) none
    [ .mk nsDataTag (some (" a ".toList)) [] ]

/-- C9 counterexample: a response whose monitoring `data` element is
present but empty makes `parse_netconf_schema_yang` raise (`len(None)` →
`TypeError`); no file is written, although the data element is
present. -/
theorem claim_C9_counterexample :
    parse_netconf_schema_yang sampleEmptyDataReply ("m".toList) ("1".toList)
      ("out/h".toList) = .error .typeError ∧
    (XElem.findChild nsDataTag sampleEmptyDataReply).isSome = true :=
  ⟨by decide, by decide⟩

/-- C9 amended: for every schema fetch response whose monitoring
namespace `data` element is present with text content, exactly one file
named `{identifier}@{version}.yang` is written under the supplied
per-device output directory, and its content is the data text with outer
whitespace trimmed — the text is exactly the written content surrounded
by whitespace, so interior content is preserved verbatim. -/
theorem claim_C9_amended (root d : XElem)
    (identifier version output_path txt : List Char)
    (hd : XElem.findChild nsDataTag root = some d)
    (ht : d.text = some txt) :
    parse_netconf_schema_yang root identifier version output_path =
      .ok ([⟨output_path ++ "/".toList ++ identifier ++ "@".toList ++
              version ++ ".yang".toList, stripChars txt⟩], txt.length) ∧
    ∃ pre post : List Char, (∀ c ∈ pre, pyIsSpace c = true) ∧
      (∀ c ∈ post, pyIsSpace c = true) ∧
      txt = pre ++ stripChars txt ++ post := by
  constructor
  · simp only [parse_netconf_schema_yang, hd, ht]
  · exact stripChars_decomp txt

/-- C9 amended, witness: text `" a "` yields the file `out/h/m@1.yang`
with content `"a"` and returned size 3. -/
theorem claim_C9_amended_witness :
    parse_netconf_schema_yang sampleDataReply ("m".toList) ("1".toList)
      ("out/h".toList) =
      .ok ([⟨"out/h/m@1.yang".toList, "a".toList⟩], 3) := by
  have h := (claim_C9_amended sampleDataReply
    (XElem.mk nsDataTag (some (" a ".toList)) []) ("m".toList) ("1".toList)
    ("out/h".toList) (" a ".toList) (by decide) (by decide)).1
  rw [h]
  decide

/-- C10: the size returned by `parse_netconf_schema_yang` (used by the
per-host statistics in `main`) is the length of the un-trimmed data
text; the file receives the stripped text, whose length never exceeds
the returned size (first conjunct) and can be strictly smaller (second
conjunct, at a concrete whitespace-padded input). -/
theorem claim_C10 (root d : XElem)
    (identifier version output_path txt : List Char)
    (hd : XElem.findChild nsDataTag root = some d)
    (ht : d.text = some txt) :
    (∃ fw : FileWrite,
      parse_netconf_schema_yang root identifier version output_path =
        .ok ([fw], txt.length) ∧
      fw.content = stripChars txt ∧
      fw.content.length ≤ txt.length) ∧
    (∃ (fw : FileWrite) (n : Nat),
      parse_netconf_schema_yang sampleDataReply identifier version output_path =
        .ok ([fw], n) ∧
      fw.content.length < n) := by
  constructor
  · refine ⟨⟨output_path ++ "/".toList ++ identifier ++ "@".toList ++
      version ++ ".yang".toList, stripChars txt⟩, ?_, rfl, stripChars_length_le txt⟩
    simp only [parse_netconf_schema_yang, hd, ht]
  · refine ⟨⟨output_path ++ "/".toList ++ identifier ++ "@".toList ++
      version ++ ".yang".toList, stripChars (" a ".toList)⟩, 3, ?_,
      (by decide : (stripChars (" a ".toList)).length < 3)⟩
    unfold parse_netconf_schema_yang
    rw [show XElem.findChild nsDataTag sampleDataReply =
      some (XElem.mk nsDataTag (some (" a ".toList)) []) from by decide]
    rfl

/-- C10 witness. -/
theorem claim_C10_witness :
    ∃ fw : FileWrite,
      parse_netconf_schema_yang sampleDataReply ("n".toList) ("2".toList)
        ("o".toList) = .ok ([fw], 3) ∧
      fw.content = stripChars (" a ".toList) ∧ fw.content.length ≤ 3 := by
  obtain ⟨fw, h1, h2, h3⟩ := (claim_C10 sampleDataReply
    (XElem.mk nsDataTag (some (" a ".toList)) []) ("n".toList) ("2".toList)
    ("o".toList) (" a ".toList) (by decide) (by decide)).1
  exact ⟨fw, h1, h2, h3⟩
